import Mathlib

/-!
Verification development for `src/senses/sense_file.c` (senseye file sense).

The file shallow-embeds the functions the claims are about:

* `cmp_histo`            (lines 107-120) — histogram dissimilarity; the C code
  works in `float`; the embedding gives its exact real-arithmetic semantics.
* `rebuild_preview`      (lines 122-203) — preview rebuild loop, modelled as an
  explicit state-passing recursion instrumented with the list of histogram
  source reads and the list of histogram pairs handed to `cmp_histo`.
* `control_event`        (lines 232-247) — click-to-offset computation.
* `update_region`        (lines 250-298) — cursor overlay un-paint/repaint.
* the main-loop pipe drain (lines 437-448) — coalescing read of offsets.

Machine integers are modelled by `Nat` (no wrap-around is exercised by any
claim), pixels by packed 32-bit RGBA values as `Nat`, the raster by a total
function `Nat → Pixel`, and the mmapped file by a function `Nat → Nat` plus an
explicit length.  Uninitialized C stack arrays (`dr`, `cr` in
`rebuild_preview`) are modelled as explicit parameters holding their arbitrary
initial contents.  External effects (`senseye_pump`, `arcan_timemillis`) are
modelled as boolean oracles indexed by the loop row.
-/

set_option maxRecDepth 10000

namespace SenseFile

/-! ### Pixels and the raster buffer

`shmif_pixel` is a packed 32-bit RGBA value; `SHMIF_RGBA(r,g,b,a)` packs the
four 8-bit channels.  The concrete channel layout is irrelevant to every claim
(all pixel operations in the source are per-channel `|`/`&`); we fix
red in the low byte, then green, blue, alpha. -/

abbrev Pixel := Nat

def SHMIF_RGBA (r g b a : Nat) : Pixel :=
  r + g * 256 + b * 65536 + a * 16777216

/-- Clear color written by the full-buffer clear in `rebuild_preview` (line 139). -/
def clear_px : Pixel := SHMIF_RGBA 0x00 0x00 0x00 0xff

/-- Overlay highlight OR-ed into painted pixels in `update_region` (line 253). -/
def olay_px : Pixel := SHMIF_RGBA 0x88 0x00 0x88 0x00

/-- Mask AND-ed into pixels by the un-paint in `update_region` (line 254). -/
def mask_px : Pixel := SHMIF_RGBA 0x00 0xff 0x00 0xff

/-- Reddish tint OR-ed into an edge row in `rebuild_preview` (line 172). -/
def tint_px : Pixel := SHMIF_RGBA 0xff 0x00 0x00 0x00

/-- Color of the transient "processing edge" row in `rebuild_preview` (line 184). -/
def procedge_px : Pixel := SHMIF_RGBA 0xff 0x00 0x00 0xff

/-- The raster pixel buffer `c->vidp`, as a total function from index to pixel. -/
abbrev Buf := Nat → Pixel

/-- Point update of the buffer (a single `c->vidp[i] = v` store). -/
def setPx (b : Buf) (i : Nat) (v : Pixel) : Buf :=
  fun j => if j = i then v else b j

theorem setPx_same (b : Buf) (i : Nat) (v : Pixel) : setPx b i v i = v := by
  simp [setPx]

theorem setPx_other (b : Buf) (i j : Nat) (v : Pixel) (h : j ≠ i) :
    setPx b i v j = b j := by
  simp [setPx, h]

/-! ### The pixel-run loops of `update_region`

Both the un-paint (`while(np-- && dst < endm) *dst++ &= mask;`, lines 268-270)
and the repaint (`while(np-- && dst < endm) *dst++ |= olay;`, lines 295-297)
walk `np` consecutive pixels from a start index, stopping at the end of the
buffer `endm`, and apply one per-pixel operation.  `run_step f b start endm n`
is that loop with per-pixel operation `f`. -/

def run_step (f : Pixel → Pixel) : Buf → Nat → Nat → Nat → Buf
  | b, _, _, 0 => b
  | b, start, endm, Nat.succ n =>
    if start < endm then
      run_step f (setPx b start (f (b start))) (start + 1) endm n
    else b

/-- The un-paint loop of `update_region` (lines 268-270): `*dst++ &= mask`. -/
def runAnd (b : Buf) (start endm n : Nat) : Buf :=
  run_step (fun p => Nat.land p mask_px) b start endm n

/-- The repaint loop of `update_region` (lines 295-297): `*dst++ |= olay`. -/
def runOr (b : Buf) (start endm n : Nat) : Buf :=
  run_step (fun p => Nat.lor p olay_px) b start endm n

/-- The set of buffer indices a run loop starting at `start` with count `n`,
clamped at `endm`, touches. -/
def runSet (start n endm i : Nat) : Prop :=
  start ≤ i ∧ i < start + n ∧ i < endm

instance (start n endm i : Nat) : Decidable (runSet start n endm i) := by
  unfold runSet; infer_instance

theorem run_step_outside (f : Pixel → Pixel) :
    ∀ (n : Nat) (b : Buf) (start endm i : Nat),
      ¬ runSet start n endm i → run_step f b start endm n i = b i := by
  intro n
  induction n with
  | zero => intro b start endm i _; rfl
  | succ n ih =>
    intro b start endm i hout
    unfold run_step
    by_cases hlt : start < endm
    · rw [if_pos hlt]
      have hi : i ≠ start := by
        intro h
        exact hout ⟨le_of_eq h.symm, by omega, by omega⟩
      have hout2 : ¬ runSet (start + 1) n endm i := by
        intro ⟨h1, h2, h3⟩
        exact hout ⟨by omega, by omega, h3⟩
      rw [ih _ _ _ _ hout2, setPx_other _ _ _ _ hi]
    · rw [if_neg hlt]

theorem run_step_inside (f : Pixel → Pixel) :
    ∀ (n : Nat) (b : Buf) (start endm i : Nat),
      runSet start n endm i → run_step f b start endm n i = f (b i) := by
  intro n
  induction n with
  | zero => intro b start endm i ⟨_, h2, _⟩; omega
  | succ n ih =>
    intro b start endm i ⟨h1, h2, h3⟩
    unfold run_step
    by_cases heq : i = start
    · subst heq
      rw [if_pos h3]
      have hout : ¬ runSet (i + 1) n endm i := by
        intro hmem
        exact absurd hmem.1 (by omega)
      rw [run_step_outside f n _ _ _ _ hout, setPx_same]
    · have hlt : start < endm := by omega
      rw [if_pos hlt]
      rw [ih _ _ _ _ ⟨by omega, by omega, h3⟩]
      rw [setPx_other _ _ _ _ heq]

/-! ### `update_region` (lines 250-298)

The per-call derived values (lines 257-258).  Note: unlike `rebuild_preview`
(lines 130-131) and `control_event` (lines 233-234), `update_region` does NOT
clamp `step_sz` to at least 1. -/

def update_region_step_sz (map_sz w h : Nat) : Nat := map_sz / (w * h)

def update_region_bytes_perline (map_sz w h : Nat) : Nat :=
  update_region_step_sz map_sz w h * w

/-- The per-window tracking state `struct data_window` (lines 41-55), restricted
to the fields `update_region` reads and writes.  `coord0`/`coord1` are
`last_coord[0]`/`last_coord[1]`. -/
structure DataWindow where
  last_pos : Nat
  last_pos_sz : Nat
  last_count_px : Nat
  coord0 : Nat
  coord1 : Nat
deriving DecidableEq

/-- Row of the top-left pixel of the repainted run (line 282):
`new_pos / bytes_perline`. -/
def paint_c1 (map_sz w h pos : Nat) : Nat :=
  pos / update_region_bytes_perline map_sz w h

/-- Column of the top-left pixel of the repainted run (line 283). -/
def paint_c0 (map_sz w h pos : Nat) : Nat :=
  (pos - paint_c1 map_sz w h pos * update_region_bytes_perline map_sz w h) /
    update_region_step_sz map_sz w h

/-- Start index (into `vidp`) of the repainted run (lines 285-286). -/
def paint_start (map_sz w h pitch pos : Nat) : Nat :=
  paint_c1 map_sz w h pos * pitch + paint_c0 map_sz w h pos

/-- Number of pixels of the repainted run (lines 290-292):
`nr = count / bytes_perline; count -= nr*bytes_perline; np = nr*w + count/step`. -/
def paint_np (map_sz w h count : Nat) : Nat :=
  count / update_region_bytes_perline map_sz w h * w +
    (count - count / update_region_bytes_perline map_sz w h *
       update_region_bytes_perline map_sz w h) /
      update_region_step_sz map_sz w h

/-- Shallow embedding of `update_region` (lines 250-298).  `count` is the value
returned by `wnd->ch->size(wnd->ch)` (line 274), passed as a parameter since the
channel is external.  Returns the updated buffer and window state. -/
def update_region (w h pitch map_sz count : Nat) (buf : Buf) (wnd : DataWindow)
    (new_pos : Nat) : Buf × DataWindow :=
  if wnd.last_pos = new_pos then (buf, wnd)
  else
    let endm := h * pitch
    let buf1 := if wnd.last_pos_sz ≠ 0 then
        runAnd buf (wnd.coord1 * pitch + wnd.coord0) endm wnd.last_count_px
      else buf
    if count = 0 then (buf1, { wnd with last_pos_sz := 0 })
    else
      let np := paint_np map_sz w h count
      (runOr buf1 (paint_start map_sz w h pitch new_pos) endm np,
       { last_pos := new_pos, last_pos_sz := count, last_count_px := np,
         coord0 := paint_c0 map_sz w h new_pos,
         coord1 := paint_c1 map_sz w h new_pos })

/-! ### `control_event` click-to-offset computation (lines 232-246) -/

/-- Byte offset enqueued to the worker on a click at pixel `(x, y)`
(lines 232-245): `step_sz = map_sz/(w*h)` clamped to at least 1,
`bytes_perline = step_sz*w`, `ofs = y*bytes_perline + x*step_sz`. -/
def control_event_ofs (map_sz w h x y : Nat) : Nat :=
  let step_sz0 := map_sz / (w * h)
  let step_sz := if step_sz0 = 0 then 1 else step_sz0
  let bytes_perline := step_sz * w
  y * bytes_perline + x * step_sz

/-! ### The main-loop pipe drain (lines 437-448)

After a first successful 8-byte read yields `m`, the flush loop
`while (-1 != read(pipe_in, &pos, sizeof(pos))){}` overwrites `pos` with each
further queued message until the pipe is empty.  Writes of 8 bytes to a pipe
are atomic, so the queue is a list of complete offsets. -/

def drain_flush (pos : Nat) : List Nat → Nat
  | [] => pos
  | m :: rest => drain_flush m rest

/-- One main-loop tick for one window (lines 437-448): read one offset
(skipping the window when the queue is empty), flush the rest keeping only the
newest, then call `update_region` once.  The `Bool` is the `dirty` flag. -/
def main_tick (w h pitch map_sz count : Nat) (buf : Buf) (wnd : DataWindow)
    (backlog : List Nat) : Buf × DataWindow × Bool :=
  match backlog with
  | [] => (buf, wnd, false)
  | m :: rest =>
    let pos := drain_flush m rest
    let r := update_region w h pitch map_sz count buf wnd pos
    (r.1, r.2, true)

/-! ### Histograms

The row histograms `int32_t dr[256], cr[256]` (lines 144-145).  A histogram is
a function from byte value to count; `bump` is one `dr[v]++`.  Note the C code
declares `dr` and `cr` WITHOUT an initializer: their contents at entry of
`rebuild_preview` are indeterminate, which the model makes explicit by taking
the initial contents as parameters. -/

abbrev Hist := Nat → Int

def zeroHist : Hist := fun _ => 0

def bump (d : Hist) (v : Nat) : Hist :=
  fun k => if k = v then d k + 1 else d k

/-! ### `cmp_histo` (lines 107-120)

The C function computes in `float`; the embedding below is its exact
real-arithmetic semantics (same expressions over `ℝ`, with `floor` the real
floor).  `sum_2` is accumulated by the source but never used afterwards, so it
is omitted. -/

def EPSILON : ℝ := 0.0000001

noncomputable def cmp_histo (a b : Fin 256 → Int) (roww : ℝ) : ℝ :=
  let na : Fin 256 → ℝ := fun i => ((a i : ℝ) + EPSILON) / roww
  let nb : Fin 256 → ℝ := fun i => ((b i : ℝ) + EPSILON) / roww
  let bcf : ℝ := ∑ i, Real.sqrt (na i * nb i)
  let sum_1 : ℝ := ∑ i, na i
  let rnd : ℝ := ((⌊sum_1 + 0.5⌋ : Int) : ℝ)
  let bcf2 : ℝ := if bcf > rnd then rnd else bcf
  1 - Real.sqrt (rnd - bcf2)

/-! ### `rebuild_preview` (lines 122-203)

The rebuild loop is modelled as explicit state passing.  Two external effects
are abstracted as oracles indexed by the current row: `pump r` is the result of
the `senseye_pump` call made in the iteration processing row `r` (line 176),
and `timer r` tells whether the 14 ms `arcan_timemillis` test fires in that
iteration (line 182).  The tint decision `cmp_histo(dr, cr, roww) < cutoff`
(lines 167-170) is a pure function of the two histograms once `cutoff` and
`roww` are fixed; it is abstracted as `edge : Hist → Hist → Bool` because the
comparison runs in `float`.  The state is instrumented with `reads` (the list
of file indices read for histogram accumulation, lines 158/160) and `cmps`
(the `(dr, cr)` argument pairs handed to `cmp_histo`, line 167). -/

structure RState where
  buf : Buf
  pos : Nat
  row : Nat
  dr : Hist
  cr : Hist
  dirty : Bool
  reads : List Nat
  cmps : List (Hist × Hist)

structure RResult where
  st : RState
  ok : Bool

/-- The per-row pixel loop (lines 152-164), fuelled by the remaining pixel
count (called with fuel `w`, index `i = 0`).  Returns the final `pos`, the
buffer, the row histogram and the accumulated read list. -/
def pixel_loop (map : Nat → Nat) (map_sz step_sz w row : Nat)
    (cutoff_present detailed : Bool) :
    Nat → Nat → Nat → Buf → Hist → List Nat → Nat × Buf × Hist × List Nat
  | 0, _, pos, buf, dr, rs => (pos, buf, dr, rs)
  | Nat.succ n, i, pos, buf, dr, rs =>
    if pos < map_sz then
      let buf1 := setPx buf (row * w + i) (SHMIF_RGBA 0x00 (map pos) 0x00 0xff)
      let dr1 := if cutoff_present then
          if detailed then
            (List.range step_sz).foldl (fun d j => bump d (map (pos + j))) dr
          else bump dr (map pos)
        else dr
      let rs1 := if cutoff_present then
          if detailed then rs ++ (List.range step_sz).map (fun j => pos + j)
          else rs ++ [pos]
        else rs
      pixel_loop map map_sz step_sz w row cutoff_present detailed
        n (i + 1) (pos + step_sz) buf1 dr1 rs1
    else (pos, buf, dr, rs)

/-- A loop over one raster row writing consecutive pixels: used for the edge
tint (lines 171-172, `f p = p | tint`) and the processing-edge row
(lines 183-184, `f p = procedge_px`). -/
def row_fill (f : Pixel → Pixel) : Buf → Nat → Nat → Buf
  | b, _, 0 => b
  | b, base, Nat.succ n => row_fill f (setPx b base (f (b base))) (base + 1) n

/-- The body of one outer-loop iteration up to the `pump` call
(lines 149-173): pixel loop over the current row, then — when edge detection
is on — the `cmp_histo`-driven tint of the row, the `memcpy(cr, dr)` and the
`memset(dr, 0)`.  The `dirty = true` of line 150 is recorded; `cpos`
(line 149) is set by the source but never used and is omitted. -/
def row_iter (map : Nat → Nat) (map_sz w step_sz : Nat)
    (cutoff_present detailed : Bool) (edge : Hist → Hist → Bool)
    (s : RState) : RState :=
  let p := pixel_loop map map_sz step_sz w s.row cutoff_present detailed
    w 0 s.pos s.buf s.dr s.reads
  let buf2 := if cutoff_present then
      if edge p.2.2.1 s.cr then
        row_fill (fun q => Nat.lor q tint_px) p.2.1 (s.row * w) w
      else p.2.1
    else p.2.1
  { buf := buf2, pos := p.1, row := s.row,
    dr := if cutoff_present then zeroHist else p.2.2.1,
    cr := if cutoff_present then p.2.2.1 else s.cr,
    dirty := true, reads := p.2.2.2,
    cmps := if cutoff_present then s.cmps ++ [(p.2.2.1, s.cr)] else s.cmps }

/-- The outer `while (pos + step_sz < map_sz && row < c->h)` loop
(lines 148-191), fuelled (called with fuel `h`; fuel can only run out with the
guard already false, since each iteration increments `row`).  On `pump`
returning false the function returns the state as of the abort with
`ok = false` (lines 176-179); otherwise the 14 ms timer may draw the transient
processing-edge row (lines 182-188) before `row++`. -/
def row_loop (map : Nat → Nat) (map_sz w h step_sz : Nat)
    (cutoff_present detailed : Bool) (edge : Hist → Hist → Bool)
    (pump timer : Nat → Bool) : Nat → RState → RResult
  | 0, s => ⟨s, true⟩
  | Nat.succ fuel, s =>
    if s.pos + step_sz < map_sz ∧ s.row < h then
      let s1 := row_iter map map_sz w step_sz cutoff_present detailed edge s
      if pump s.row = false then ⟨s1, false⟩
      else
        let buf3 := if timer s.row then
            if s.row < h then
              row_fill (fun _ => procedge_px) s1.buf ((s.row + 1) * w) w
            else s1.buf
          else s1.buf
        let s2 := { s1 with
          buf := buf3
          row := s.row + 1
          dirty := if timer s.row then false else true }
        row_loop map map_sz w h step_sz cutoff_present detailed edge pump timer
          fuel s2
    else ⟨s, true⟩

/-- Shallow embedding of `rebuild_preview` (lines 122-203): computes `step_sz`
with the clamp of lines 130-131, clears the whole `w*h` raster to opaque black
(lines 138-139), then runs the row loop starting from the indeterminate
initial histogram contents `dr0`, `cr0`.  The post-loop overlay repaint of the
completed path (lines 195-201) calls `update_region`, which is modelled
separately; no claim about `rebuild_preview` depends on it. -/
def rebuild_preview (map : Nat → Nat) (map_sz w h : Nat)
    (cutoff_present detailed : Bool) (edge : Hist → Hist → Bool)
    (pump timer : Nat → Bool) (dr0 cr0 : Hist) (buf0 : Buf) : RResult :=
  let step_sz0 := map_sz / (w * h)
  let step_sz := if step_sz0 = 0 then 1 else step_sz0
  let bufc : Buf := fun i => if i < w * h then clear_px else buf0 i
  row_loop map map_sz w h step_sz cutoff_present detailed edge pump timer h
    { buf := bufc, pos := 0, row := 0, dr := dr0, cr := cr0, dirty := false,
      reads := [], cmps := [] }

/-! ### Concrete instances used by witnesses and counterexamples -/

/-- All-clear raster buffer. -/
def bufW0 : Buf := fun _ => clear_px

/-- Fresh window state (the zero-initialized `fsense.windows[0]`). -/
def wndW0 : DataWindow := ⟨0, 0, 0, 0, 0⟩

/-- Buffer of the C6 counterexample: raster clear except pixel 3, which an
edge-tinted preview row left with the red channel set. -/
def bufCE : Buf := fun i => if i = 3 then SHMIF_RGBA 0xff 0x00 0x00 0xff else clear_px

/-- Window of the C6 counterexample: its stored run is pixel 3 (coord (1,1) on
a 2×2 raster), away from the runs the two calls paint. -/
def wndCE : DataWindow := ⟨999, 1, 1, 1, 1⟩

/-- An all-zero 8-byte file. -/
def mapZero : Nat → Nat := fun _ => 0

/-- Indeterminate initial contents of the uninitialized `dr` stack array:
5 stale counts in bin 17. -/
def dr0C1 : Hist := fun k => if k = 17 then 5 else 0

/-- Indeterminate initial contents of the uninitialized `cr` stack array:
9 stale counts in bin 23. -/
def cr0C1 : Hist := fun k => if k = 23 then 9 else 0

/-- Rebuild of an all-zero 8-byte file on a 2×2 raster with edge detection on
(fast mode), starting from the stale `dr`/`cr` contents above; the abstract
edge decision never fires, the pump always continues, the timer never fires. -/
def resC1 : RResult :=
  rebuild_preview mapZero 8 2 2 true false (fun _ _ => false)
    (fun _ => true) (fun _ => false) dr0C1 cr0C1 (fun _ => 0)

/-- Same run but with an edge decision that fires on the very first
comparison (as `cmp_histo` against stale `cr` contents can): used to show the
code tints row 0. -/
def resC1t : RResult :=
  rebuild_preview mapZero 8 2 2 true false (fun _ _ => true)
    (fun _ => true) (fun _ => false) dr0C1 cr0C1 (fun _ => 0)

/-- Rebuild of an all-zero 8-byte file on a 2×2 raster whose pump cancels at
the first opportunity (after row 0). -/
def resC5 : RResult :=
  rebuild_preview mapZero 8 2 2 false false (fun _ _ => false)
    (fun _ => false) (fun _ => false) zeroHist zeroHist (fun _ => 0)

/-! ## Helper lemmas about the run loops -/

theorem runAnd_outside (b : Buf) (start endm n i : Nat)
    (h : ¬ runSet start n endm i) : runAnd b start endm n i = b i :=
  run_step_outside _ n b start endm i h

theorem runOr_outside (b : Buf) (start endm n i : Nat)
    (h : ¬ runSet start n endm i) : runOr b start endm n i = b i :=
  run_step_outside _ n b start endm i h

theorem runAnd_inside (b : Buf) (start endm n i : Nat)
    (h : runSet start n endm i) :
    runAnd b start endm n i = Nat.land (b i) mask_px :=
  run_step_inside _ n b start endm i h

theorem runOr_inside (b : Buf) (start endm n i : Nat)
    (h : runSet start n endm i) :
    runOr b start endm n i = Nat.lor (b i) olay_px :=
  run_step_inside _ n b start endm i h

/-- One `update_region` call leaves every pixel outside both the previously
stored run and the newly painted run unchanged. -/
theorem update_region_outside (w h pitch map_sz count : Nat) (buf : Buf)
    (wnd : DataWindow) (o i : Nat)
    (hprev : ¬ runSet (wnd.coord1 * pitch + wnd.coord0) wnd.last_count_px
        (h * pitch) i)
    (hpaint : ¬ runSet (paint_start map_sz w h pitch o) (paint_np map_sz w h count)
        (h * pitch) i) :
    (update_region w h pitch map_sz count buf wnd o).1 i = buf i := by
  have ha : (if wnd.last_pos_sz ≠ 0 then
        runAnd buf (wnd.coord1 * pitch + wnd.coord0) (h * pitch) wnd.last_count_px
      else buf) i = buf i := by
    by_cases hsz : wnd.last_pos_sz ≠ 0
    · simp only [if_pos hsz]
      exact runAnd_outside buf _ _ _ i hprev
    · simp only [if_neg hsz]
  by_cases hg : wnd.last_pos = o
  · simp [update_region, hg]
  · by_cases hc : count = 0
    · simp only [update_region, if_neg hg, hc, if_pos rfl]
      simpa using ha
    · simp only [update_region, if_neg hg, if_neg hc]
      rw [runOr_outside _ _ _ _ i hpaint]
      simpa using ha

/-- After one `update_region` call the stored window run parameters are either
unchanged (no-op guard, or zero sample size) or exactly the parameters of the
run the call painted. -/
theorem update_region_wnd_spec (w h pitch map_sz count : Nat) (buf : Buf)
    (wnd : DataWindow) (o : Nat) :
    ((update_region w h pitch map_sz count buf wnd o).2.coord0 = wnd.coord0 ∧
     (update_region w h pitch map_sz count buf wnd o).2.coord1 = wnd.coord1 ∧
     (update_region w h pitch map_sz count buf wnd o).2.last_count_px =
       wnd.last_count_px) ∨
    ((update_region w h pitch map_sz count buf wnd o).2.coord0 =
       paint_c0 map_sz w h o ∧
     (update_region w h pitch map_sz count buf wnd o).2.coord1 =
       paint_c1 map_sz w h o ∧
     (update_region w h pitch map_sz count buf wnd o).2.last_count_px =
       paint_np map_sz w h count) := by
  by_cases hg : wnd.last_pos = o
  · left; simp [update_region, hg]
  · by_cases hc : count = 0
    · left; simp [update_region, hg, hc]
    · right; simp [update_region, hg, hc]

/-! ## Claim theorems -/

/-- C4: the claim says the step value used by `update_region` satisfies
`step = max(1, length/(w*h)) ≥ 1` so the divisions by `bytesPerRow` and `step`
never divide by zero.  The code (lines 257-258) computes
`step_sz = map_sz / (w*h)` WITHOUT the `if (step_sz == 0) step_sz = 1` clamp
that `rebuild_preview` (lines 130-131) and `control_event` (lines 233-234)
both apply: with a 100-byte file and a 16×16 raster the step is 0 and
`bytes_perline` is 0, so `new_pos / bytes_perline` (line 282) divides by zero.
This theorem evaluates the code's step at that failing input and contrasts it
with the spec's clamped formula. -/
theorem C4_update_region_step_zero :
    update_region_step_sz 100 16 16 = 0 ∧
    update_region_bytes_perline 100 16 16 = 0 ∧
    max 1 (100 / (16 * 16)) = 1 := by
  decide

/-- C8: the byte offset enqueued on a pointer click at pixel `(x, y)`
(lines 232-245) equals `y * bytesPerRow + x * step` with
`step = max(1, length/(w*h))` and `bytesPerRow = step * w`; and concretely a
click at `(3, 2)` with `step = 4`, `width = 16` (file of 4096 bytes, 16×64
raster) yields offset 140. -/
theorem C8_control_event_offset (map_sz w h x y : Nat) :
    control_event_ofs map_sz w h x y =
      y * (max 1 (map_sz / (w * h)) * w) + x * max 1 (map_sz / (w * h)) ∧
    control_event_ofs 4096 16 64 3 2 = 140 := by
  refine ⟨?_, by decide⟩
  by_cases h0 : map_sz / (w * h) = 0
  · simp [control_event_ofs, h0]
  · have h1 : 1 ≤ map_sz / (w * h) := Nat.pos_of_ne_zero h0
    simp [control_event_ofs, h0, Nat.max_eq_right h1]

/-- C7: `update_region` is a no-op when the new offset equals the stored
window offset (the guard of lines 260-261 returns before any pixel or field
is written), and consequently calling it twice with the same offset and size
leaves exactly the state of a single call — including the corner case where
`wnd->ch->size` reports 0 bytes, in which the first call stores
`last_pos_sz = 0` and still never re-touches the raster on the repeat. -/
theorem C7_update_region_idempotent (w h pitch map_sz count : Nat)
    (buf : Buf) (wnd : DataWindow) (new_pos : Nat) :
    (wnd.last_pos = new_pos →
       update_region w h pitch map_sz count buf wnd new_pos = (buf, wnd)) ∧
    update_region w h pitch map_sz count
        (update_region w h pitch map_sz count buf wnd new_pos).1
        (update_region w h pitch map_sz count buf wnd new_pos).2 new_pos
      = update_region w h pitch map_sz count buf wnd new_pos := by
  constructor
  · intro hpos
    simp [update_region, hpos]
  · by_cases hpos : wnd.last_pos = new_pos
    · simp [update_region, hpos]
    · by_cases hc : count = 0
      · simp [update_region, hpos, hc]
      · simp [update_region, hpos, hc]

/-- Lemma: the flush loop keeps exactly the last queued offset. -/
theorem drain_flush_getLast :
    ∀ (rest : List Nat) (m : Nat),
      drain_flush m rest = (m :: rest).getLast (List.cons_ne_nil m rest) := by
  intro rest
  induction rest with
  | nil => intro m; rfl
  | cons a l ih =>
    intro m
    rw [drain_flush, ih a, List.getLast_cons (List.cons_ne_nil a l)]

/-- C3: when `N` offsets are queued on the worker→coordinator pipe before one
main-loop drain (lines 437-448), the tick performs exactly one overlay update,
with the last enqueued offset; earlier offsets in the backlog are overwritten
unread by the flush loop (line 443) and produce no overlay update. -/
theorem C3_main_tick_coalesces (w h pitch map_sz count : Nat) (buf : Buf)
    (wnd : DataWindow) (backlog : List Nat) (hne : backlog ≠ []) :
    main_tick w h pitch map_sz count buf wnd backlog =
      ((update_region w h pitch map_sz count buf wnd (backlog.getLast hne)).1,
       (update_region w h pitch map_sz count buf wnd (backlog.getLast hne)).2,
       true) := by
  match backlog, hne with
  | m :: rest, _ =>
    simp [main_tick, drain_flush_getLast]

/-- Witness for C3: a backlog of three offsets 5, 6, 7 coalesces to a single
update at offset 7. -/
theorem C3_main_tick_coalesces_witness :
    main_tick 2 2 2 4 1 bufW0 wndW0 [5, 6, 7] =
      ((update_region 2 2 2 4 1 bufW0 wndW0 7).1,
       (update_region 2 2 2 4 1 bufW0 wndW0 7).2, true) :=
  C3_main_tick_coalesces 2 2 2 4 1 bufW0 wndW0 [5, 6, 7] (by decide)

/-- C9: after a call of `update_region` that paints (guard passed, nonzero
sample size), the stored window fields are exactly the painted run's
parameters under the current `bytes_perline`/`step_sz`: the stored start index
and pixel count equal `paint_start`/`paint_np`, and therefore the un-paint a
subsequent call performs (a `runAnd` over the stored fields, lines 264-271)
touches exactly the pixels this call's repaint covered — it AND-masks every
index inside that run and leaves every index outside it unchanged.  Since the
pre-state `wnd` is universally quantified, this holds after every painting
call of any sequence of overlay updates.  The hypothesis `w * h ≤ map_sz`
confines the statement to the inputs where the C arithmetic is defined (see
C4 for the divide-by-zero outside it). -/
theorem C9_update_region_stores_consistent_run (w h pitch map_sz count : Nat)
    (buf : Buf) (wnd : DataWindow) (new_pos : Nat)
    (_hm : w * h ≤ map_sz) (hg : wnd.last_pos ≠ new_pos) (hc : count ≠ 0) :
    (update_region w h pitch map_sz count buf wnd new_pos).2.coord1 * pitch +
        (update_region w h pitch map_sz count buf wnd new_pos).2.coord0 =
      paint_start map_sz w h pitch new_pos ∧
    (update_region w h pitch map_sz count buf wnd new_pos).2.last_count_px =
      paint_np map_sz w h count ∧
    (update_region w h pitch map_sz count buf wnd new_pos).2.last_pos_sz = count ∧
    (∀ (b : Buf) (i : Nat),
       ¬ runSet (paint_start map_sz w h pitch new_pos) (paint_np map_sz w h count)
           (h * pitch) i →
       runAnd b
         ((update_region w h pitch map_sz count buf wnd new_pos).2.coord1 * pitch +
           (update_region w h pitch map_sz count buf wnd new_pos).2.coord0)
         (h * pitch)
         (update_region w h pitch map_sz count buf wnd new_pos).2.last_count_px i
         = b i) ∧
    (∀ (b : Buf) (i : Nat),
       runSet (paint_start map_sz w h pitch new_pos) (paint_np map_sz w h count)
           (h * pitch) i →
       runAnd b
         ((update_region w h pitch map_sz count buf wnd new_pos).2.coord1 * pitch +
           (update_region w h pitch map_sz count buf wnd new_pos).2.coord0)
         (h * pitch)
         (update_region w h pitch map_sz count buf wnd new_pos).2.last_count_px i
         = Nat.land (b i) mask_px) := by
  have hwnd : (update_region w h pitch map_sz count buf wnd new_pos).2 =
      { last_pos := new_pos, last_pos_sz := count,
        last_count_px := paint_np map_sz w h count,
        coord0 := paint_c0 map_sz w h new_pos,
        coord1 := paint_c1 map_sz w h new_pos } := by
    simp [update_region, hg, hc]
  rw [hwnd]
  refine ⟨rfl, rfl, rfl, ?_, ?_⟩
  · intro b i hout
    exact runAnd_outside b _ _ _ i hout
  · intro b i hin
    exact runAnd_inside b _ _ _ i hin

/-- Witness for C9: concrete painting call (4-byte file, 2×2 raster,
1-byte sample at offset 0) whose stored pixel count matches `paint_np`. -/
theorem C9_update_region_stores_consistent_run_witness :
    (update_region 2 2 2 4 1 bufW0 ⟨5, 0, 0, 0, 0⟩ 0).2.last_count_px =
      paint_np 4 2 2 1 :=
  (C9_update_region_stores_consistent_run 2 2 2 4 1 bufW0 ⟨5, 0, 0, 0, 0⟩ 0
    (by decide) (by decide) (by decide)).2.1

/-- C6 (amended): pixels outside the union of the window's previously stored
run AND the two runs painted for `o1`, `o2` are unchanged by
`update(o1); update(o2)`.  The previously stored run must be in the union
because the first call's un-paint (lines 264-271) AND-masks it; the claim as
frozen omits it and is refuted by `C6_counterexample` below. -/
theorem C6_update_region_frame_effect (w h pitch map_sz count1 count2 : Nat)
    (buf : Buf) (wnd : DataWindow) (o1 o2 i : Nat)
    (h0 : ¬ runSet (wnd.coord1 * pitch + wnd.coord0) wnd.last_count_px
            (h * pitch) i)
    (h1 : ¬ runSet (paint_start map_sz w h pitch o1) (paint_np map_sz w h count1)
            (h * pitch) i)
    (h2 : ¬ runSet (paint_start map_sz w h pitch o2) (paint_np map_sz w h count2)
            (h * pitch) i) :
    (update_region w h pitch map_sz count2
       (update_region w h pitch map_sz count1 buf wnd o1).1
       (update_region w h pitch map_sz count1 buf wnd o1).2 o2).1 i = buf i := by
  have hfst := update_region_outside w h pitch map_sz count1 buf wnd o1 i h0 h1
  rcases update_region_wnd_spec w h pitch map_sz count1 buf wnd o1 with
    ⟨e0, e1, e2⟩ | ⟨e0, e1, e2⟩
  · have hsnd := update_region_outside w h pitch map_sz count2
      (update_region w h pitch map_sz count1 buf wnd o1).1
      (update_region w h pitch map_sz count1 buf wnd o1).2 o2 i
      (by rw [e0, e1, e2]; exact h0) h2
    rw [hsnd, hfst]
  · have hsnd := update_region_outside w h pitch map_sz count2
      (update_region w h pitch map_sz count1 buf wnd o1).1
      (update_region w h pitch map_sz count1 buf wnd o1).2 o2 i
      (by rw [e0, e1, e2]; exact h1) h2
    rw [hsnd, hfst]

/-- Counterexample to C6 as frozen: on a 4-byte file with a 2×2 raster
(step 1, two 1-byte samples at offsets 0 then 1 painting pixel runs {0} and
{1}), pixel 3 lies outside both painted runs yet changes across
`update(0); update(1)`: the first call's un-paint of the previously stored run
AND-masks away its red channel. -/
theorem C6_counterexample :
    ¬ runSet (paint_start 4 2 2 2 0) (paint_np 4 2 2 1) (2 * 2) 3 ∧
    ¬ runSet (paint_start 4 2 2 2 1) (paint_np 4 2 2 1) (2 * 2) 3 ∧
    (update_region 2 2 2 4 1
       (update_region 2 2 2 4 1 bufCE wndCE 0).1
       (update_region 2 2 2 4 1 bufCE wndCE 0).2 1).1 3 ≠ bufCE 3 := by
  decide

/-- Witness for C6 (amended): pixel 2 is outside the stored run {3} and both
painted runs {0}, {1}, and indeed keeps its value across the two calls. -/
theorem C6_update_region_frame_effect_witness :
    (update_region 2 2 2 4 1
       (update_region 2 2 2 4 1 bufCE wndCE 0).1
       (update_region 2 2 2 4 1 bufCE wndCE 0).2 1).1 2 = bufCE 2 :=
  C6_update_region_frame_effect 2 2 2 4 1 1 bufCE wndCE 0 1 2
    (by decide) (by decide) (by decide)

/-- Witness for C7: with a window whose stored offset is already 7, the call
at offset 7 is a no-op. -/
theorem C7_update_region_idempotent_witness :
    update_region 2 2 2 4 1 bufW0 ⟨7, 1, 1, 0, 0⟩ 7 = (bufW0, ⟨7, 1, 1, 0, 0⟩) :=
  (C7_update_region_idempotent 2 2 2 4 1 bufW0 ⟨7, 1, 1, 0, 0⟩ 7).1 rfl

/-! ## Helper lemmas about the rebuild loops -/

/-- A `row_fill` only writes the indices `[base, base + n)`. -/
theorem row_fill_outside (f : Pixel → Pixel) :
    ∀ (n : Nat) (b : Buf) (base j : Nat), j < base ∨ base + n ≤ j →
      row_fill f b base n j = b j := by
  intro n
  induction n with
  | zero => intro b base j _; rfl
  | succ n ih =>
    intro b base j hj
    simp only [row_fill]
    rw [ih _ _ _ (by omega)]
    exact setPx_other _ _ _ _ (by omega)

/-- The pixel loop for row `row` only writes raster indices inside
`[row*w, row*w + w)`. -/
theorem pixel_loop_outside (map : Nat → Nat) (map_sz step_sz w row : Nat)
    (cp det : Bool) :
    ∀ (n i pos : Nat) (buf : Buf) (dr : Hist) (rs : List Nat) (j : Nat),
      i + n ≤ w → j < row * w ∨ row * w + w ≤ j →
      (pixel_loop map map_sz step_sz w row cp det n i pos buf dr rs).2.1 j = buf j := by
  intro n
  induction n with
  | zero => intro i pos buf dr rs j _ _; rfl
  | succ n ih =>
    intro i pos buf dr rs j hin hj
    simp only [pixel_loop]
    by_cases hp : pos < map_sz
    · rw [if_pos hp]
      rw [ih (i + 1) _ _ _ _ j (by omega) hj]
      exact setPx_other _ _ _ _ (by omega)
    · rw [if_neg hp]

/-- One iteration body keeps the row counter. -/
theorem row_iter_row (map : Nat → Nat) (map_sz w step_sz : Nat) (cp det : Bool)
    (edge : Hist → Hist → Bool) (s : RState) :
    (row_iter map map_sz w step_sz cp det edge s).row = s.row := rfl

/-- One iteration body only writes raster indices of the current row. -/
theorem row_iter_buf_outside (map : Nat → Nat) (map_sz w step_sz : Nat)
    (cp det : Bool) (edge : Hist → Hist → Bool) (s : RState) (j : Nat)
    (hj : j < s.row * w ∨ s.row * w + w ≤ j) :
    (row_iter map map_sz w step_sz cp det edge s).buf j = s.buf j := by
  unfold row_iter
  cases cp with
  | false =>
    exact pixel_loop_outside map map_sz step_sz w s.row false det
      w 0 s.pos s.buf s.dr s.reads j (by omega) hj
  | true =>
    have hpl := pixel_loop_outside map map_sz step_sz w s.row true det
      w 0 s.pos s.buf s.dr s.reads j (by omega) hj
    show (if edge (pixel_loop map map_sz step_sz w s.row true det
        w 0 s.pos s.buf s.dr s.reads).2.2.1 s.cr then
        row_fill (fun q => Nat.lor q tint_px)
          (pixel_loop map map_sz step_sz w s.row true det
            w 0 s.pos s.buf s.dr s.reads).2.1 (s.row * w) w
      else (pixel_loop map map_sz step_sz w s.row true det
        w 0 s.pos s.buf s.dr s.reads).2.1) j = s.buf j
    by_cases he : edge (pixel_loop map map_sz step_sz w s.row true det
        w 0 s.pos s.buf s.dr s.reads).2.2.1 s.cr
    · rw [if_pos he, row_fill_outside _ _ _ _ _ hj]
      exact hpl
    · rw [if_neg he]
      exact hpl

/-- Unfolding equation for one step of the outer loop. -/
theorem row_loop_succ (map : Nat → Nat) (map_sz w h step_sz : Nat)
    (cp det : Bool) (edge : Hist → Hist → Bool) (pump timer : Nat → Bool)
    (fuel : Nat) (s : RState) :
    row_loop map map_sz w h step_sz cp det edge pump timer (fuel + 1) s =
      if s.pos + step_sz < map_sz ∧ s.row < h then
        if pump s.row = false then
          ⟨row_iter map map_sz w step_sz cp det edge s, false⟩
        else
          row_loop map map_sz w h step_sz cp det edge pump timer fuel
            { row_iter map map_sz w step_sz cp det edge s with
              buf := if timer s.row then
                  if s.row < h then
                    row_fill (fun _ => procedge_px)
                      (row_iter map map_sz w step_sz cp det edge s).buf
                      ((s.row + 1) * w) w
                  else (row_iter map map_sz w step_sz cp det edge s).buf
                else (row_iter map map_sz w step_sz cp det edge s).buf
              row := s.row + 1
              dirty := if timer s.row then false else true }
      else ⟨s, true⟩ := rfl

/-- If the rebuild loop is cancelled, every raster index in a row strictly
below the row at which it stopped still holds the clear color, provided that
held when the loop was entered. -/
theorem row_loop_cancel_clear (map : Nat → Nat) (map_sz w h step_sz : Nat)
    (cp det : Bool) (edge : Hist → Hist → Bool) (pump timer : Nat → Bool) :
    ∀ (fuel : Nat) (s : RState),
      (∀ r i, s.row < r → r < h → i < w → s.buf (r * w + i) = clear_px) →
      (row_loop map map_sz w h step_sz cp det edge pump timer fuel s).ok = false →
      ∀ r i,
        (row_loop map map_sz w h step_sz cp det edge pump timer fuel s).st.row < r →
        r < h → i < w →
        (row_loop map map_sz w h step_sz cp det edge pump timer fuel s).st.buf
          (r * w + i) = clear_px := by
  intro fuel
  induction fuel with
  | zero =>
    intro s _ hok
    simp [row_loop] at hok
  | succ fuel ih =>
    intro s hinv hok r i hr hrh hiw
    rw [row_loop_succ] at hok hr ⊢
    by_cases hguard : s.pos + step_sz < map_sz ∧ s.row < h
    · rw [if_pos hguard] at hok hr ⊢
      by_cases hpump : pump s.row = false
      · rw [if_pos hpump] at hr ⊢
        have hrow : s.row < r := by
          rw [show (RResult.mk (row_iter map map_sz w step_sz cp det edge s)
            false).st.row = s.row from rfl] at hr
          exact hr
        have hout : r * w + i < s.row * w ∨ s.row * w + w ≤ r * w + i := by
          right
          have h1 : (s.row + 1) * w ≤ r * w := Nat.mul_le_mul_right w (by omega)
          have h2 : (s.row + 1) * w = s.row * w + w := Nat.succ_mul s.row w
          omega
        show (row_iter map map_sz w step_sz cp det edge s).buf (r * w + i) = clear_px
        rw [row_iter_buf_outside map map_sz w step_sz cp det edge s _ hout]
        exact hinv r i hrow hrh hiw
      · rw [if_neg hpump] at hok hr ⊢
        refine ih _ ?_ hok r i hr hrh hiw
        intro r2 i2 hr2 hrh2 hiw2
        have hr2' : s.row + 1 < r2 := hr2
        have hband2 : r2 * w + i2 < (s.row + 1) * w ∨ (s.row + 1) * w + w ≤ r2 * w + i2 := by
          right
          have h1 : (s.row + 2) * w ≤ r2 * w := Nat.mul_le_mul_right w (by omega)
          have h2 : (s.row + 2) * w = (s.row + 1) * w + w := Nat.succ_mul (s.row + 1) w
          omega
        have hband1 : r2 * w + i2 < s.row * w ∨ s.row * w + w ≤ r2 * w + i2 := by
          right
          have h1 : (s.row + 1) * w ≤ r2 * w := Nat.mul_le_mul_right w (by omega)
          have h2 : (s.row + 1) * w = s.row * w + w := Nat.succ_mul s.row w
          omega
        show (if timer s.row then
            if s.row < h then
              row_fill (fun _ => procedge_px)
                (row_iter map map_sz w step_sz cp det edge s).buf
                ((s.row + 1) * w) w
            else (row_iter map map_sz w step_sz cp det edge s).buf
          else (row_iter map map_sz w step_sz cp det edge s).buf)
            (r2 * w + i2) = clear_px
        have hiter : (row_iter map map_sz w step_sz cp det edge s).buf
            (r2 * w + i2) = clear_px := by
          rw [row_iter_buf_outside map map_sz w step_sz cp det edge s _ hband1]
          exact hinv r2 i2 (by omega) hrh2 hiw2
        by_cases ht : timer s.row
        · rw [if_pos ht, if_pos hguard.2, row_fill_outside _ _ _ _ _ hband2]
          exact hiter
        · rw [if_neg ht]
          exact hiter
    · rw [if_neg hguard] at hok
      exact absurd hok (by simp)

/-- C5: if the pump callback cancels the rebuild after completing row `k`
(the only cancellation point, line 176), `rebuild_preview` returns false with
the raster exactly as written so far — in particular every pixel of every row
strictly after `k` still holds the opaque-black clear color written by the
full-buffer clear of lines 138-139.  Rows `0..k` trivially retain the values
already written, since the returned state is the state at the failing pump
call.  (The transient processing-edge row drawn by the 14 ms timer never
survives into rows beyond `k`: it is drawn after the pump check, on row `k+1`
of a *continuing* iteration, and is overwritten by that row's own pixel
writes.) -/
theorem C5_rebuild_cancel_rows_clear (map : Nat → Nat) (map_sz w h : Nat)
    (cp det : Bool) (edge : Hist → Hist → Bool) (pump timer : Nat → Bool)
    (dr0 cr0 : Hist) (buf0 : Buf)
    (hok : (rebuild_preview map map_sz w h cp det edge pump timer
      dr0 cr0 buf0).ok = false) :
    ∀ r i,
      (rebuild_preview map map_sz w h cp det edge pump timer
        dr0 cr0 buf0).st.row < r →
      r < h → i < w →
      (rebuild_preview map map_sz w h cp det edge pump timer
        dr0 cr0 buf0).st.buf (r * w + i) = clear_px := by
  have hinit : ∀ r i, (0 : Nat) < r → r < h → i < w →
      (if r * w + i < w * h then clear_px else buf0 (r * w + i)) = clear_px := by
    intro r i _ hrh hiw
    have hlt : r * w + i < w * h := by
      have h1 : (r + 1) * w ≤ h * w := Nat.mul_le_mul_right w (by omega)
      have h2 : (r + 1) * w = r * w + w := Nat.succ_mul r w
      have h3 : h * w = w * h := Nat.mul_comm h w
      omega
    rw [if_pos hlt]
  unfold rebuild_preview at hok ⊢
  exact row_loop_cancel_clear map map_sz w h _ cp det edge pump timer h
    _ (fun r i hr hrh hiw => hinit r i hr hrh hiw) hok

/-- Witness for C5: a pump that refuses at the first opportunity cancels the
rebuild at row 0, and pixel (0, 1) — row 1 of the 2×2 raster — is still the
clear color. -/
theorem C5_rebuild_cancel_rows_clear_witness :
    resC5.ok = false ∧ resC5.st.buf (1 * 2 + 0) = clear_px :=
  ⟨by decide,
   C5_rebuild_cancel_rows_clear mapZero 8 2 2 false false (fun _ _ => false)
     (fun _ => false) (fun _ => false) zeroHist zeroHist (fun _ => 0)
     (by decide) 1 0 (by decide) (by decide) (by decide)⟩

/-- Unfolding equation for one detailed-mode pixel step (guard true). -/
theorem pixel_loop_succ_detailed (map : Nat → Nat) (map_sz step_sz w row : Nat)
    (n i pos : Nat) (buf : Buf) (dr : Hist) (rs : List Nat) (hp : pos < map_sz) :
    pixel_loop map map_sz step_sz w row true true (n + 1) i pos buf dr rs =
      pixel_loop map map_sz step_sz w row true true n (i + 1) (pos + step_sz)
        (setPx buf (row * w + i) (SHMIF_RGBA 0x00 (map pos) 0x00 0xff))
        ((List.range step_sz).foldl (fun d j => bump d (map (pos + j))) dr)
        (rs ++ (List.range step_sz).map (fun j => pos + j)) := by
  simp [pixel_loop, hp]

/-- Unfolding equation for a pixel step that stops on `pos ≥ map_sz`. -/
theorem pixel_loop_succ_stop (map : Nat → Nat) (map_sz step_sz w row : Nat)
    (cp det : Bool) (n i pos : Nat) (buf : Buf) (dr : Hist) (rs : List Nat)
    (hp : ¬ pos < map_sz) :
    pixel_loop map map_sz step_sz w row cp det (n + 1) i pos buf dr rs =
      (pos, buf, dr, rs) := by
  simp [pixel_loop, hp]

/-- In clamped mode (`step_sz = 1`, taken when the file is smaller than the
raster), every histogram read index the detailed pixel loop appends is in
bounds: each iteration reads only `pos` itself, under the guard
`pos < map_sz`. -/
theorem pixel_loop_reads_step1 (map : Nat → Nat) (map_sz w row : Nat) :
    ∀ (n i pos : Nat) (buf : Buf) (dr : Hist) (rs : List Nat),
      (∀ x ∈ rs, x < map_sz) →
      ∀ x ∈ (pixel_loop map map_sz 1 w row true true n i pos buf dr rs).2.2.2,
        x < map_sz := by
  intro n
  induction n with
  | zero => intro i pos buf dr rs hrs x hx; exact hrs x hx
  | succ n ih =>
    intro i pos buf dr rs hrs x hx
    by_cases hp : pos < map_sz
    · rw [pixel_loop_succ_detailed map map_sz 1 w row n i pos buf dr rs hp] at hx
      refine ih (i + 1) (pos + 1) _ _ _ ?_ x hx
      intro y hy
      rcases List.mem_append.mp hy with hmem | hmem
      · exact hrs y hmem
      · obtain ⟨j, hj, rfl⟩ := List.mem_map.mp hmem
        have hj1 : j < 1 := List.mem_range.mp hj
        omega
    · rw [pixel_loop_succ_stop map map_sz 1 w row true true n i pos buf dr rs hp] at hx
      exact hrs x hx

/-- In unclamped mode, if the whole span of the remaining pixels fits inside
the file (`pos + n*step_sz ≤ map_sz`), the detailed pixel loop consumes it
fully (final `pos` advances by exactly `n*step_sz`) and every histogram read
index it appends is strictly below `map_sz`. -/
theorem pixel_loop_pos_reads (map : Nat → Nat) (map_sz step_sz w row : Nat)
    (hstep : 1 ≤ step_sz) :
    ∀ (n i pos : Nat) (buf : Buf) (dr : Hist) (rs : List Nat),
      pos + n * step_sz ≤ map_sz →
      (∀ x ∈ rs, x < map_sz) →
      (pixel_loop map map_sz step_sz w row true true n i pos buf dr rs).1 =
          pos + n * step_sz ∧
      ∀ x ∈ (pixel_loop map map_sz step_sz w row true true n i pos buf dr rs).2.2.2,
        x < map_sz := by
  intro n
  induction n with
  | zero =>
    intro i pos buf dr rs _ hrs
    exact ⟨by simp [pixel_loop], hrs⟩
  | succ n ih =>
    intro i pos buf dr rs hb hrs
    have hsm : (n + 1) * step_sz = n * step_sz + step_sz := Nat.succ_mul n step_sz
    have hp : pos < map_sz := by
      rw [hsm] at hb
      omega
    rw [pixel_loop_succ_detailed map map_sz step_sz w row n i pos buf dr rs hp]
    have hb2 : pos + step_sz + n * step_sz ≤ map_sz := by
      rw [hsm] at hb
      omega
    have hrs2 : ∀ y ∈ rs ++ (List.range step_sz).map (fun j => pos + j),
        y < map_sz := by
      intro y hy
      rcases List.mem_append.mp hy with hmem | hmem
      · exact hrs y hmem
      · obtain ⟨j, hj, rfl⟩ := List.mem_map.mp hmem
        have hjs : j < step_sz := List.mem_range.mp hj
        rw [hsm] at hb
        omega
    obtain ⟨hpos, hreads⟩ := ih (i + 1) (pos + step_sz) _ _ _ hb2 hrs2
    refine ⟨?_, hreads⟩
    rw [hpos, hsm]
    omega

/-- The iteration body's final source position is the pixel loop's. -/
theorem row_iter_pos (map : Nat → Nat) (map_sz w step_sz : Nat) (cp det : Bool)
    (edge : Hist → Hist → Bool) (s : RState) :
    (row_iter map map_sz w step_sz cp det edge s).pos =
      (pixel_loop map map_sz step_sz w s.row cp det
        w 0 s.pos s.buf s.dr s.reads).1 := rfl

/-- The iteration body's read list is the pixel loop's. -/
theorem row_iter_reads (map : Nat → Nat) (map_sz w step_sz : Nat) (cp det : Bool)
    (edge : Hist → Hist → Bool) (s : RState) :
    (row_iter map map_sz w step_sz cp det edge s).reads =
      (pixel_loop map map_sz step_sz w s.row cp det
        w 0 s.pos s.buf s.dr s.reads).2.2.2 := rfl

/-- Read-index bound for the whole rebuild loop in clamped mode (`step = 1`). -/
theorem row_loop_reads_step1 (map : Nat → Nat) (map_sz w h : Nat)
    (edge : Hist → Hist → Bool) (pump timer : Nat → Bool) :
    ∀ (fuel : Nat) (s : RState),
      (∀ x ∈ s.reads, x < map_sz) →
      ∀ x ∈ (row_loop map map_sz w h 1 true true edge pump timer fuel s).st.reads,
        x < map_sz := by
  intro fuel
  induction fuel with
  | zero => intro s hrs x hx; exact hrs x hx
  | succ fuel ih =>
    intro s hrs x hx
    rw [row_loop_succ] at hx
    by_cases hguard : s.pos + 1 < map_sz ∧ s.row < h
    · rw [if_pos hguard] at hx
      have hiter : ∀ y ∈ (row_iter map map_sz w 1 true true edge s).reads,
          y < map_sz := by
        rw [row_iter_reads]
        exact pixel_loop_reads_step1 map map_sz w s.row w 0 s.pos s.buf s.dr
          s.reads hrs
      by_cases hpump : pump s.row = false
      · rw [if_pos hpump] at hx
        exact hiter x hx
      · rw [if_neg hpump] at hx
        refine ih _ ?_ x hx
        exact fun y hy => hiter y hy
    · rw [if_neg hguard] at hx
      exact hrs x hx

/-- Read-index bound for the whole rebuild loop in unclamped mode: with
`step_sz·(w·h) ≤ map_sz` (true of `step_sz = map_sz/(w*h) ≥ 1`) and the
invariant that each iteration starts at `pos = row · (step_sz·w)`, every full
row's span ends within the file, so even the last pixel of a row reads
`step_sz` bytes in bounds. -/
theorem row_loop_reads_unclamped (map : Nat → Nat) (map_sz w h step_sz : Nat)
    (edge : Hist → Hist → Bool) (pump timer : Nat → Bool)
    (hstep : 1 ≤ step_sz) (hs : step_sz * (w * h) ≤ map_sz) :
    ∀ (fuel : Nat) (s : RState),
      s.pos = s.row * (step_sz * w) →
      (∀ x ∈ s.reads, x < map_sz) →
      ∀ x ∈ (row_loop map map_sz w h step_sz true true edge pump
        timer fuel s).st.reads, x < map_sz := by
  intro fuel
  induction fuel with
  | zero => intro s _ hrs x hx; exact hrs x hx
  | succ fuel ih =>
    intro s hpos hrs x hx
    rw [row_loop_succ] at hx
    by_cases hguard : s.pos + step_sz < map_sz ∧ s.row < h
    · have hb : s.pos + w * step_sz ≤ map_sz := by
        have h1 : (s.row + 1) * (step_sz * w) ≤ h * (step_sz * w) :=
          Nat.mul_le_mul_right _ (by omega)
        have h2 : h * (step_sz * w) = step_sz * (w * h) := by ring
        have h3 : s.pos + w * step_sz = (s.row + 1) * (step_sz * w) := by
          rw [hpos]; ring
        omega
      obtain ⟨hpl_pos, hpl_reads⟩ := pixel_loop_pos_reads map map_sz step_sz w
        s.row hstep w 0 s.pos s.buf s.dr s.reads hb hrs
      rw [if_pos hguard] at hx
      by_cases hpump : pump s.row = false
      · rw [if_pos hpump] at hx
        exact hpl_reads x hx
      · rw [if_neg hpump] at hx
        refine ih _ ?_ ?_ x hx
        · show (row_iter map map_sz w step_sz true true edge s).pos =
            (s.row + 1) * (step_sz * w)
          rw [row_iter_pos, hpl_pos, hpos]
          ring
        · exact fun y hy => hpl_reads y hy
    · rw [if_neg hguard] at hx
      exact hrs x hx

/-- C10: in detailed mode with edge detection enabled, every histogram
accumulation read `map[pos + j]` performed by `rebuild_preview` (lines
157-158) accesses an index strictly below the file length, for every file
length and raster size.  When the file is smaller than the raster the step
clamps to 1 and each pixel reads exactly its guarded `pos`; otherwise
`step·w·h ≤ map_sz` bounds every row's full span. -/
theorem C10_rebuild_detailed_reads_in_bounds (map : Nat → Nat)
    (map_sz w h : Nat) (edge : Hist → Hist → Bool) (pump timer : Nat → Bool)
    (dr0 cr0 : Hist) (buf0 : Buf) :
    ∀ x ∈ (rebuild_preview map map_sz w h true true edge pump timer
      dr0 cr0 buf0).st.reads, x < map_sz := by
  intro x hx
  simp only [rebuild_preview] at hx
  by_cases h0 : map_sz / (w * h) = 0
  · rw [if_pos h0] at hx
    exact row_loop_reads_step1 map map_sz w h edge pump timer h _
      (by intro y hy; simp at hy) x hx
  · rw [if_neg h0] at hx
    have hstep : 1 ≤ map_sz / (w * h) := Nat.pos_of_ne_zero h0
    have hs : map_sz / (w * h) * (w * h) ≤ map_sz := Nat.div_mul_le_self _ _
    exact row_loop_reads_unclamped map map_sz w h _ edge pump timer hstep hs h _
      (by simp) (by intro y hy; simp at hy) x hx

/-- C1: evidence that the code contradicts the claim (code bug).  The claim
says the per-row histogram starts from all-zero counts at the beginning of
every row and that row 0 is never tinted.  The source declares
`int32_t dr[256]; int32_t cr[256];` (lines 144-145) with no initializer and
never clears them before the first row — they are only cleared/copied after
each row's comparison (lines 168-169) — so row 0's comparison sees the
indeterminate initial contents of both arrays.  Concretely, on an all-zero
8-byte file with a 2×2 raster, when the stale contents are 5 counts in bin 17
(`dr`) and 9 counts in bin 23 (`cr`): the first `cmp_histo` call receives a
`dr` with 5 phantom counts in bin 17 (no file byte equals 17) and the stale
`cr` as previous-row histogram, while from row 1 on the histogram does start
at zero (bin 17 is 0 in the second call); and nothing special-cases row 0 —
whenever the comparison falls below the cutoff (`resC1t`'s edge decision),
row 0 IS tinted with the reddish mask. -/
theorem C1_rebuild_row0_histogram_uninitialized :
    (resC1.st.cmps.getD 0 (zeroHist, zeroHist)).1 17 = 5 ∧
    (resC1.st.cmps.getD 0 (zeroHist, zeroHist)).2 23 = 9 ∧
    (resC1.st.cmps.getD 1 (zeroHist, zeroHist)).1 17 = 0 ∧
    resC1t.st.buf 0 = SHMIF_RGBA 0xff 0x00 0x00 0xff := by
  decide

/-- Witness for C10: in the detailed rebuild of an all-zero 8-byte file on a
2×2 raster (step 2), index 4 is among the histogram reads and is in bounds. -/
theorem C10_rebuild_detailed_reads_in_bounds_witness :
    (4 : Nat) ∈ (rebuild_preview mapZero 8 2 2 true true (fun _ _ => false)
      (fun _ => true) (fun _ => false) zeroHist zeroHist (fun _ => 0)).st.reads ∧
    (4 : Nat) < 8 :=
  ⟨by decide,
   C10_rebuild_detailed_reads_in_bounds mapZero 8 2 2 (fun _ _ => false)
     (fun _ => true) (fun _ => false) zeroHist zeroHist (fun _ => 0) 4 (by decide)⟩

/-- Key lemma for C2: on two identical histograms with nonnegative counts and
`roww` equal to the total count (hence at least 1), `cmp_histo` evaluates to
exactly 1 in real arithmetic: the Bhattacharyya sum collapses to
`sum_1 = 1 + 256·ε/roww`, the rounded sum is 1, the overshoot clamp of
line 118 fires, and the result is `1 - sqrt(1 - 1) = 1`. -/
theorem cmp_histo_self (a : Fin 256 → Int) (hnn : ∀ i, 0 ≤ a i) (roww : ℝ)
    (hrw : roww = ∑ i, ((a i : ℝ))) (h1 : 1 ≤ roww) :
    cmp_histo a a roww = 1 := by
  have hr0 : (0 : ℝ) < roww := lt_of_lt_of_le one_pos h1
  have hna : ∀ i : Fin 256, 0 ≤ ((a i : ℝ) + EPSILON) / roww := by
    intro i
    apply div_nonneg _ (le_of_lt hr0)
    have hai : (0 : ℝ) ≤ (a i : ℝ) := by exact_mod_cast hnn i
    have heps : (0 : ℝ) < EPSILON := by norm_num [EPSILON]
    linarith
  have hepsdiv : (0 : ℝ) < 256 * EPSILON / roww := by
    apply div_pos _ hr0
    norm_num [EPSILON]
  have hepsbound : 256 * EPSILON / roww ≤ 256 * EPSILON :=
    div_le_self (by norm_num [EPSILON]) h1
  have hbcf : (∑ i : Fin 256, Real.sqrt ((((a i : ℝ) + EPSILON) / roww) *
        (((a i : ℝ) + EPSILON) / roww))) =
      ∑ i : Fin 256, ((a i : ℝ) + EPSILON) / roww :=
    Finset.sum_congr rfl fun i _ => Real.sqrt_mul_self (hna i)
  have hsum : (∑ i : Fin 256, ((a i : ℝ) + EPSILON) / roww) =
      1 + 256 * EPSILON / roww := by
    rw [← Finset.sum_div, Finset.sum_add_distrib, Finset.sum_const,
      Finset.card_univ, Fintype.card_fin, nsmul_eq_mul, ← hrw, add_div,
      div_self (ne_of_gt hr0)]
    norm_num
  have hflr : (⌊(∑ i : Fin 256, ((a i : ℝ) + EPSILON) / roww) + 0.5⌋ : ℤ) = 1 := by
    rw [hsum, Int.floor_eq_iff]
    constructor
    · push_cast
      linarith
    · push_cast
      have h256 : (256 : ℝ) * EPSILON < 1 / 2 := by norm_num [EPSILON]
      linarith
  show (1 : ℝ) - Real.sqrt
      (((⌊(∑ i : Fin 256, ((a i : ℝ) + EPSILON) / roww) + 0.5⌋ : ℤ) : ℝ) -
        (if (∑ i : Fin 256, Real.sqrt ((((a i : ℝ) + EPSILON) / roww) *
              (((a i : ℝ) + EPSILON) / roww))) >
            ((⌊(∑ i : Fin 256, ((a i : ℝ) + EPSILON) / roww) + 0.5⌋ : ℤ) : ℝ) then
          ((⌊(∑ i : Fin 256, ((a i : ℝ) + EPSILON) / roww) + 0.5⌋ : ℤ) : ℝ)
        else (∑ i : Fin 256, Real.sqrt ((((a i : ℝ) + EPSILON) / roww) *
              (((a i : ℝ) + EPSILON) / roww))))) = 1
  rw [hbcf, hflr, hsum]
  rw [if_pos (by push_cast; linarith)]
  push_cast
  simp

/-- C2: for every pair of 256-bin histograms with equal bin counts and every
positive `roww` equal to the total sample count, the dissimilarity `cmp_histo`
(lines 107-120, real-arithmetic semantics of the float code) is at least the
near-1 bound 0.99 and lies in [0, 1] — on such inputs it is exactly 1 by
`cmp_histo_self`.  Positivity of the integer total forces `roww ≥ 1`. -/
theorem C2_cmp_histo_self_similarity (a b : Fin 256 → Int)
    (hab : ∀ i, a i = b i) (hnn : ∀ i, 0 ≤ a i) (roww : ℝ)
    (hrw : roww = ∑ i, ((a i : ℝ))) (hpos : 0 < roww) :
    (1 - 1 / 100 : ℝ) ≤ cmp_histo a b roww ∧
    0 ≤ cmp_histo a b roww ∧ cmp_histo a b roww ≤ 1 := by
  have hb : b = a := funext fun i => (hab i).symm
  rw [hb]
  have h1 : 1 ≤ roww := by
    have hcast : (∑ i : Fin 256, ((a i : ℝ))) = (((∑ i : Fin 256, a i : ℤ)) : ℝ) := by
      push_cast
      rfl
    have hzr : (0 : ℝ) < (((∑ i : Fin 256, a i : ℤ)) : ℝ) := by
      rw [← hcast, ← hrw]
      exact hpos
    have hz : 0 < (∑ i : Fin 256, a i : ℤ) := by exact_mod_cast hzr
    have hz1 : 1 ≤ (∑ i : Fin 256, a i : ℤ) := hz
    have : ((1 : ℤ) : ℝ) ≤ (((∑ i : Fin 256, a i : ℤ)) : ℝ) := by exact_mod_cast hz1
    rw [hrw, hcast]
    simpa using this
  have heq := cmp_histo_self a hnn roww hrw h1
  rw [heq]
  norm_num

/-- Histogram of the C2 witness: 4 samples, all of byte value 0. -/
def aC2 : Fin 256 → Int := fun i => if i = 0 then 4 else 0

/-- Witness for C2: the concrete equal pair `(aC2, aC2)` with `roww = 4` (its
total count) satisfies the near-1 bound and the [0, 1] range. -/
theorem C2_cmp_histo_self_similarity_witness :
    (1 - 1 / 100 : ℝ) ≤ cmp_histo aC2 aC2 4 ∧
    0 ≤ cmp_histo aC2 aC2 4 ∧ cmp_histo aC2 aC2 4 ≤ 1 :=
  C2_cmp_histo_self_similarity aC2 aC2 (fun _ => rfl) (by decide) 4
    (by simp [aC2, apply_ite (fun z : ℤ => (z : ℝ)), Finset.sum_ite_eq])
    (by norm_num)

end SenseFile
